import Mathlib

/-!
Shallow embedding of `src/pandas_aux.py`, a small library of pandas
DataFrame cleaning and export helpers.

A DataFrame is modelled as a `Table`: an ordered list of column names plus
an ordered list of rows, each row a list of cell values aligned with the
column list by index.  Cell values are strings, integers, booleans or the
missing sentinel (NaN/None).  Python string conversion (`str(x)` /
`.astype(str)`) is modelled by `pyStr`, where `str(nan) = "nan"`.

Operations that mutate the caller's DataFrame in place
(`clean_special_characters`, `lowercase_dataframe`,
`filter_by_different_char_count`) are modelled as functions returning a
pair: the first component is the value the Python function returns, the
second component is the state of the caller's DataFrame after the call.
Operations that copy their input (or build a fresh frame) are plain
functions; the caller's table is unchanged by construction.
-/

namespace PandasAux

inductive Value where
  | str (s : String)
  | num (n : Int)
  | bool (b : Bool)
  | missing
deriving DecidableEq

def isStrVal : Value → Bool
  | .str _ => true
  | _ => false

/-- Python `str(x)` on a cell: strings unchanged, integers printed,
booleans print as `True` / `False`, and the missing sentinel (NaN)
prints as `"nan"`. -/
def pyStr : Value → String
  | .str s => s
  | .num n => toString n
  | .bool b => if b then "True" else "False"
  | .missing => "nan"

/-- The ASCII whitespace characters matched by Python `str.strip()` and
by the regex class `\s`. -/
def isPyWS (c : Char) : Bool :=
  c == ' ' || c == '\t' || c == '\n' || c == '\r' ||
    c == Char.ofNat 11 || c == Char.ofNat 12

def lstripL (l : List Char) : List Char := l.dropWhile isPyWS

def rstripL (l : List Char) : List Char := (l.reverse.dropWhile isPyWS).reverse

def pyStripL (l : List Char) : List Char := rstripL (lstripL l)

/-- Python `str.strip()`: remove leading and trailing whitespace. -/
def pyStrip (s : String) : String := ⟨pyStripL s.data⟩

/-- Python `str.lower()` (ASCII model). -/
def pyLower (s : String) : String := ⟨s.data.map Char.toLower⟩

/-- Python `re.sub(r'\D', '', s)`: keep only the decimal digits of `s`. -/
def digitsOnly (s : String) : String := ⟨s.data.filter Char.isDigit⟩

/-- Python `str.zfill(n)` on a digit string: left-pad with zeros to
length `n`. -/
def zfill (n : Nat) (s : String) : String :=
  ⟨List.replicate (n - s.length) '0' ++ s.data⟩

structure Table where
  cols : List String
  rows : List (List Value)
deriving DecidableEq

/-- Index of column `c` in the column list (length of the list when
absent; every operation checks membership before using it). -/
def Table.colIdx (T : Table) (c : String) : Nat := T.cols.indexOf c

/-- The cell of row `r` in column position `j`. -/
def cellAt (j : Nat) (r : List Value) : Value := r.getD j .missing

/-- The values of column `c`, top to bottom. -/
def getCol (T : Table) (c : String) : List Value :=
  T.rows.map (cellAt (T.colIdx c))

/-- A table is well-formed when every row has exactly one cell per
column, as every real DataFrame does. -/
def Table.Wf (T : Table) : Prop := ∀ r ∈ T.rows, r.length = T.cols.length

instance (T : Table) : Decidable T.Wf :=
  inferInstanceAs (Decidable (∀ r ∈ T.rows, r.length = T.cols.length))

/-- Overwrite column `c` cell-wise with `f` (a pandas
`df[column] = df[column].apply(f)` assignment). -/
def mapColTable (T : Table) (c : String) (f : Value → Value) : Table :=
  ⟨T.cols, T.rows.map (fun r => r.set (T.colIdx c) (f (cellAt (T.colIdx c) r)))⟩

/-- The typed error raised by the functions that signal a missing column
with `raise ValueError(...)`. -/
inductive DfError where
  | invalidColumn (c : String)
deriving DecidableEq

/-! ## The operations of `pandas_aux.py` -/

/-- Helper for `remove_duplicates`: drops later rows whose column-`j` cell
value was already seen (pandas `drop_duplicates(subset=[column],
keep='first')`; NaN counts as equal to NaN there, as `missing = missing`
does here). -/
def dedupeRows (j : Nat) : List Value → List (List Value) → List (List Value)
  | _, [] => []
  | seen, r :: rs =>
    if cellAt j r ∈ seen then dedupeRows j seen rs
    else r :: dedupeRows j (cellAt j r :: seen) rs

def remove_duplicates (T : Table) (column : String) : Except DfError Table :=
  if column ∈ T.cols then
    .ok ⟨T.cols, dedupeRows (T.colIdx column) [] T.rows⟩
  else .error (.invalidColumn column)

/-- The function `strip_dataframe` applies `col.str.strip()` to every column whose
dtype is `object`.  A column has `object` dtype exactly when it holds at
least one string; `.str.strip()` strips strings, keeps NaN, and turns
any non-string element into NaN. -/
def stripObjCell : Value → Value
  | .str s => .str (pyStrip s)
  | _ => .missing

def colAt (T : Table) (j : Nat) : List Value := T.rows.map (cellAt j)

def objFlags (T : Table) : List Bool :=
  (List.range T.cols.length).map (fun j => (colAt T j).any isStrVal)

def stripCells : List Bool → List Value → List Value
  | _, [] => []
  | [], vs => vs
  | f :: fs, v :: vs => (if f then stripObjCell v else v) :: stripCells fs vs

def strip_dataframe (T : Table) : Table :=
  ⟨T.cols, T.rows.map (stripCells (objFlags T))⟩

/-- Pandas elementwise `==` used by `filter_dataframe`: NaN compares
unequal to everything, NaN included. -/
def valueEqPandas (a b : Value) : Bool :=
  match a, b with
  | .missing, _ => false
  | _, .missing => false
  | a, b => a = b

def filter_dataframe (T : Table) (column : String) (parameter : Value) :
    Option Table :=
  if column ∈ T.cols then
    some ⟨T.cols,
      T.rows.filter (fun r => valueEqPandas (cellAt (T.colIdx column) r) parameter)⟩
  else none

/-- Helper `clean_text` of `clean_special_characters`: on strings, replace `&` by
`E` then keep only ASCII letters, digits and whitespace; other values
pass through. -/
def cleanText : Value → Value
  | .str s =>
    .str ⟨(s.data.map (fun ch => if ch = '&' then 'E' else ch)).filter
      (fun ch => ch.isAlphanum || isPyWS ch)⟩
  | v => v

/-- The function `clean_special_characters` mutates the caller's frame in place
(`df.loc[:, column] = ...`) and returns it; pair = (returned value,
caller's frame after the call). -/
def clean_special_characters (T : Table) (column : String) :
    Option Table × Table :=
  if column ∈ T.cols then
    let R := mapColTable T column cleanText
    (some R, R)
  else (none, T)

def lowerCell : Value → Value
  | .str s => .str (pyLower s)
  | v => v

/-- The function `lowercase_dataframe` mutates in place (`df[column] = ...`) and
returns the frame. -/
def lowercase_dataframe (T : Table) (column : String) :
    Option Table × Table :=
  if column ∈ T.cols then
    let R := mapColTable T column lowerCell
    (some R, R)
  else (none, T)

/-- Python `str(x).strip().lower()`. -/
def stripLower (s : String) : String := pyLower (pyStrip s)

/-- Helper `process` of `format_document`: missing values and values whose stripped,
lowercased string form is `""`, `"nan"` or `"none"` become missing; any
other value is stringified, stripped, reduced to its digits, then
zero-padded or truncated to `size`. -/
def processDoc (size : Nat) (v : Value) : Value :=
  if v = .missing ∨ stripLower (pyStr v) ∈ (["", "nan", "none"] : List String) then
    .missing
  else
    let ds := digitsOnly (pyStrip (pyStr v))
    if ds.length < size then .str (zfill size ds)
    else if ds.length > size then .str ⟨ds.data.take size⟩
    else .str ds

/-- The function `format_document` copies the frame (`df = df.copy()`), so the
caller's table is untouched; returns `None` when the column is absent. -/
def format_document (T : Table) (column : String) (size : Nat) :
    Option Table :=
  if column ∈ T.cols then some (mapColTable T column (processDoc size))
  else none

def drop_column (T : Table) (column : String) : Option Table :=
  if column ∈ T.cols then
    some ⟨T.cols.eraseIdx (T.colIdx column),
      T.rows.map (fun r => r.eraseIdx (T.colIdx column))⟩
  else none

/-- Cell of a row after `df[column].astype(str)`. -/
def stringifyCell (v : Value) : Value := .str (pyStr v)

/-- Keep the rows whose mask entry is `true` (pandas boolean-mask row
selection `df[mask]`). -/
def selectRows : List (List Value) → List Bool → List (List Value)
  | [], _ => []
  | _, [] => []
  | r :: rs, b :: bs =>
    if b then r :: selectRows rs bs else selectRows rs bs

/-- The function `filter_by_different_char_count` raises on a missing column;
otherwise stringifies the column IN PLACE on the caller's frame
(`df[column] = df[column].astype(str)`), then returns the new frame of
rows whose stringified cell length differs from `char_count`.  Pair =
(returned value, caller's frame after the call). -/
def filter_by_different_char_count (T : Table) (column : String)
    (char_count : Nat) : Except DfError Table × Table :=
  if column ∈ T.cols then
    let T2 := mapColTable T column stringifyCell
    let mask := T2.rows.map (fun r => (pyStr (cellAt (T.colIdx column) r)).length != char_count)
    (.ok ⟨T2.cols, selectRows T2.rows mask⟩, T2)
  else (.error (.invalidColumn column), T)

/-- Cell transform of `limit_column_size`: after `astype(str)`, truncate to
`limit` characters, leaving falsy (empty) strings as they are. -/
def limitCell (limit : Nat) (v : Value) : Value :=
  let s := pyStr v
  if s = "" then .str s else .str ⟨s.data.take limit⟩

def limit_column_size (T : Table) (column : String) (limit : Nat) :
    Except DfError Table :=
  if column ∈ T.cols then .ok (mapColTable T column (limitCell limit))
  else .error (.invalidColumn column)

/-- Helper `process_phone` of `format_phone_number` after `astype(str)`: every cell
becomes the digit-only string of its Python string form. -/
def phoneClean (v : Value) : Value := .str (digitsOnly (pyStr v))

/-- The function `format_phone_number` copies the frame, so the caller's table is
untouched; returns `None` when the column is absent. -/
def format_phone_number (T : Table) (column : String) : Option Table :=
  if column ∈ T.cols then some (mapColTable T column phoneClean)
  else none

def rename_column (T : Table) (current_name new_name : String) :
    Option Table :=
  if current_name ∈ T.cols then
    some ⟨T.cols.map (fun s => if s = current_name then new_name else s), T.rows⟩
  else none

/-! ## `dataframe_to_excel`

The export writes a sheet whose row 1 holds the column headers and rows
2..N+1 the data, adds a named table `DataTable` over the region
`A1:{chr(65 + numCols - 1)}{N + 1}`, and sets each column width to
`max(len(str(cell.value)) for cell in col if cell.value) + 2`, a maximum
over the TRUTHY cells of the sheet column (header cell included).
Python truthiness: `0`, `False` and `""` are falsy; `float('nan')` is
truthy.  A column with no truthy cell makes `max()` raise, which the
`except` turns into a `None` return.  We model the computed artifacts:
the region reference string and the width list. -/

structure SheetInfo where
  regionRef : String
  widths : List Nat
deriving DecidableEq

def truthyCell : Value → Bool
  | .str s => !s.isEmpty
  | .num n => if n = 0 then false else true
  | .bool b => b
  | .missing => true

/-- The sheet columns: header string paired with the data cells. -/
def columnsOf (T : Table) : List (String × List Value) :=
  (List.range T.cols.length).map (fun j => (T.cols.getD j "", colAt T j))

/-- The lengths the width loop maximises over: the header cell (falsy,
hence skipped, when empty) and the truthy data cells, stringified. -/
def colWidthCandidates (header : String) (cells : List Value) : List Nat :=
  (if header.isEmpty then [] else [header.length]) ++
    (cells.filter truthyCell).map (fun v => (pyStr v).length)

/-- Python `max` over a list, `none` on the empty list (where `max()`
raises `ValueError`). -/
def pyMax (l : List Nat) : Option Nat :=
  match l with
  | [] => none
  | a :: t => some (t.foldl max a)

def sheetWidths (T : Table) : Option (List Nat) :=
  (columnsOf T).mapM (fun hc => (pyMax (colWidthCandidates hc.1 hc.2)).map (· + 2))

/-- The `ref` string of the `DataTable` region:
`f"A1:{chr(65 + len(df.columns) - 1)}{num_rows}"`. -/
def tableRegionRef (T : Table) : String :=
  "A1:" ++ String.mk [Char.ofNat (65 + T.cols.length - 1)] ++
    toString (T.rows.length + 1)

def dataframe_to_excel (T : Table) : Option SheetInfo :=
  match sheetWidths T with
  | some ws => some ⟨tableRegionRef T, ws⟩
  | none => none

/-! ## Basic lemmas about cells and columns -/

lemma cellAt_set (j : Nat) (r : List Value) (v : Value) :
    cellAt j (r.set j v) = if j < r.length then v else cellAt j r := by
  induction r generalizing j with
  | nil => simp [cellAt]
  | cons a t ih =>
    cases j with
    | zero => simp [cellAt]
    | succ j =>
      have := ih j
      simp only [List.set, cellAt, List.getD_cons_succ, List.length_cons] at this ⊢
      rw [this]
      simp [Nat.succ_lt_succ_iff]

lemma colIdx_lt (T : Table) (c : String) (h : c ∈ T.cols) :
    T.colIdx c < T.cols.length :=
  List.indexOf_lt_length.mpr h

lemma cols_mapColTable (T : Table) (c : String) (f : Value → Value) :
    (mapColTable T c f).cols = T.cols := rfl

lemma getCol_mapColTable (T : Table) (c : String) (f : Value → Value)
    (hwf : T.Wf) (hc : c ∈ T.cols) :
    getCol (mapColTable T c f) c = (getCol T c).map f := by
  unfold getCol mapColTable
  simp only [List.map_map]
  apply List.map_congr_left
  intro r hr
  have hj : T.colIdx c < r.length := by
    rw [hwf r hr]; exact colIdx_lt T c hc
  simp only [Function.comp]
  show cellAt (T.colIdx c) (r.set (T.colIdx c) (f (cellAt (T.colIdx c) r))) =
    f (cellAt (T.colIdx c) r)
  rw [cellAt_set, if_pos hj]

/-! ## C3: behaviour of every operation on a missing column -/

/-- C3: every operation handed a column name absent from the table
returns its documented failure signal (a typed `invalidColumn` error for
`remove_duplicates`, `filter_by_different_char_count` and
`limit_column_size`; `none` for the rest), and the caller's table is
left unchanged (for the in-place-mutating operations this is the second
component of the returned pair; the remaining operations never touch
their input). -/
theorem missing_column_behaviour (T : Table) (c : String) (p : Value)
    (size n limit : Nat) (nn : String) (h : c ∉ T.cols) :
    remove_duplicates T c = .error (.invalidColumn c) ∧
    filter_dataframe T c p = none ∧
    (clean_special_characters T c).1 = none ∧
    (clean_special_characters T c).2 = T ∧
    (lowercase_dataframe T c).1 = none ∧
    (lowercase_dataframe T c).2 = T ∧
    format_document T c size = none ∧
    drop_column T c = none ∧
    (filter_by_different_char_count T c n).1 = .error (.invalidColumn c) ∧
    (filter_by_different_char_count T c n).2 = T ∧
    limit_column_size T c limit = .error (.invalidColumn c) ∧
    format_phone_number T c = none ∧
    rename_column T c nn = none := by
  refine ⟨?_, ?_, ?_, ?_, ?_, ?_, ?_, ?_, ?_, ?_, ?_, ?_, ?_⟩ <;>
    simp [remove_duplicates, filter_dataframe, clean_special_characters,
      lowercase_dataframe, format_document, drop_column,
      filter_by_different_char_count, limit_column_size,
      format_phone_number, rename_column, h]

theorem missing_column_behaviour_witness :
    remove_duplicates ⟨["a"], [[Value.num 1]]⟩ "zz" =
      .error (.invalidColumn "zz") :=
  (missing_column_behaviour ⟨["a"], [[Value.num 1]]⟩ "zz" (.num 0) 1 2 3 "w"
    (by decide)).1

/-! ## C1: `remove_duplicates` -/

lemma dedupeRows_sublist (j : Nat) (seen : List Value)
    (rs : List (List Value)) :
    List.Sublist (dedupeRows j seen rs) rs := by
  induction rs generalizing seen with
  | nil => simp [dedupeRows]
  | cons r rs ih =>
    by_cases h : cellAt j r ∈ seen
    · simp only [dedupeRows, if_pos h]
      exact (ih seen).trans (List.sublist_cons_self r rs)
    · simp only [dedupeRows, if_neg h]
      exact (ih _).cons₂ r

lemma dedupeRows_not_seen (j : Nat) :
    ∀ (seen : List Value) (rs : List (List Value)) (v : Value),
      v ∈ (dedupeRows j seen rs).map (cellAt j) → v ∉ seen := by
  intro seen rs
  induction rs generalizing seen with
  | nil => intro v hv; simp [dedupeRows] at hv
  | cons r rs ih =>
    intro v hv
    by_cases h : cellAt j r ∈ seen
    · exact ih seen v (by simpa [dedupeRows, if_pos h] using hv)
    · simp only [dedupeRows, if_neg h, List.map_cons, List.mem_cons] at hv
      rcases hv with rfl | hv
      · exact h
      · have := ih (cellAt j r :: seen) v hv
        exact fun hm => this (List.mem_cons_of_mem _ hm)

lemma dedupeRows_nodup (j : Nat) :
    ∀ (seen : List Value) (rs : List (List Value)),
      ((dedupeRows j seen rs).map (cellAt j)).Nodup := by
  intro seen rs
  induction rs generalizing seen with
  | nil => simp [dedupeRows]
  | cons r rs ih =>
    by_cases h : cellAt j r ∈ seen
    · simpa [dedupeRows, if_pos h] using ih seen
    · simp only [dedupeRows, if_neg h, List.map_cons]
      refine List.nodup_cons.mpr ⟨?_, ih _⟩
      intro hmem
      exact (dedupeRows_not_seen j _ rs _ hmem) (List.mem_cons_self _ _)

lemma dedupeRows_keeps_first (j : Nat) :
    ∀ (rs : List (List Value)) (seen : List Value) (i : Nat)
      (hi : i < rs.length),
      cellAt j (rs.get ⟨i, hi⟩) ∉ seen →
      cellAt j (rs.get ⟨i, hi⟩) ∉ (rs.take i).map (cellAt j) →
      rs.get ⟨i, hi⟩ ∈ dedupeRows j seen rs := by
  intro rs
  induction rs with
  | nil => intro seen i hi; exact absurd hi (Nat.not_lt_zero i)
  | cons r rs ih =>
    intro seen i hi hseen hfirst
    cases i with
    | zero =>
      simp only [List.get] at hseen ⊢
      simp only [dedupeRows, if_neg hseen]
      exact List.mem_cons_self _ _
    | succ i =>
      have hi' : i < rs.length := Nat.succ_lt_succ_iff.mp hi
      have hget : (r :: rs).get ⟨i + 1, hi⟩ = rs.get ⟨i, hi'⟩ := rfl
      rw [hget] at hseen hfirst ⊢
      simp only [List.take_succ_cons, List.map_cons, List.mem_cons,
        not_or] at hfirst
      obtain ⟨h0, hrest⟩ := hfirst
      by_cases h : cellAt j r ∈ seen
      · simp only [dedupeRows, if_pos h]
        exact ih seen i hi' hseen hrest
      · simp only [dedupeRows, if_neg h]
        refine List.mem_cons_of_mem _ (ih (cellAt j r :: seen) i hi' ?_ hrest)
        intro hm
        rcases List.mem_cons.mp hm with he | hm'
        · exact h0 he
        · exact hseen hm'

/-- C1: when column `c` is present, `remove_duplicates` returns a table
whose `c`-values are pairwise distinct, whose rows form a subsequence of
the input rows, and which retains every row whose `c`-value does not
occur in any earlier row (the first occurrence of each distinct value);
when `c` is absent it fails with the typed `invalidColumn` error
(`raise ValueError`). -/
theorem remove_duplicates_spec (T : Table) (c : String) :
    (c ∈ T.cols →
      ∃ R, remove_duplicates T c = .ok R ∧ R.cols = T.cols ∧
        (getCol R c).Nodup ∧
        List.Sublist R.rows T.rows ∧
        ∀ i, (hi : i < T.rows.length) →
          cellAt (T.colIdx c) (T.rows.get ⟨i, hi⟩) ∉
            (T.rows.take i).map (cellAt (T.colIdx c)) →
          T.rows.get ⟨i, hi⟩ ∈ R.rows) ∧
    (c ∉ T.cols → remove_duplicates T c = .error (.invalidColumn c)) := by
  constructor
  · intro hc
    refine ⟨⟨T.cols, dedupeRows (T.colIdx c) [] T.rows⟩, ?_, rfl, ?_, ?_, ?_⟩
    · simp [remove_duplicates, hc]
    · exact dedupeRows_nodup (T.colIdx c) [] T.rows
    · exact dedupeRows_sublist (T.colIdx c) [] T.rows
    · intro i hi hfirst
      exact dedupeRows_keeps_first (T.colIdx c) T.rows [] i hi
        (by simp) hfirst
  · intro hc
    simp [remove_duplicates, hc]

theorem remove_duplicates_spec_witness :
    ∃ R, remove_duplicates
        ⟨["a", "b"], [[Value.num 1, Value.str "x"],
          [Value.num 1, Value.str "y"], [Value.num 2, Value.str "z"]]⟩ "a" =
        .ok R ∧
      R.cols = ["a", "b"] ∧
      (getCol R "a").Nodup ∧
      List.Sublist R.rows [[Value.num 1, Value.str "x"],
        [Value.num 1, Value.str "y"], [Value.num 2, Value.str "z"]] ∧
      ∀ i, (hi : i < ([[Value.num 1, Value.str "x"],
          [Value.num 1, Value.str "y"],
          [Value.num 2, Value.str "z"]] : List (List Value)).length) →
        cellAt 0 (([[Value.num 1, Value.str "x"],
          [Value.num 1, Value.str "y"],
          [Value.num 2, Value.str "z"]] : List (List Value)).get ⟨i, hi⟩) ∉
          (([[Value.num 1, Value.str "x"], [Value.num 1, Value.str "y"],
            [Value.num 2, Value.str "z"]] : List (List Value)).take i).map
            (cellAt 0) →
        ([[Value.num 1, Value.str "x"], [Value.num 1, Value.str "y"],
          [Value.num 2, Value.str "z"]] : List (List Value)).get ⟨i, hi⟩ ∈
          R.rows :=
  (remove_duplicates_spec
    ⟨["a", "b"], [[Value.num 1, Value.str "x"], [Value.num 1, Value.str "y"],
      [Value.num 2, Value.str "z"]]⟩ "a").1 (by decide)

/-! ## C7 and C10: `filter_by_different_char_count` -/

lemma selectRows_map (p : List Value → Bool) (rs : List (List Value)) :
    selectRows rs (rs.map p) = rs.filter p := by
  induction rs with
  | nil => rfl
  | cons r rs ih =>
    cases h : p r <;> simp [selectRows, List.filter_cons, h, ih]

/-- C7: when column `c` is present, the returned frame keeps, in order,
exactly those rows whose stringified `c`-cell length differs from
`char_count`: its rows are the length-filtered rows of the stringified
table, equivalently the stringification of the length-filtered rows of
the input, and a subsequence of the stringified table's rows; when `c`
is absent the call fails with the typed `invalidColumn` error. -/
theorem filter_by_different_char_count_spec (T : Table) (c : String)
    (n : Nat) :
    (c ∈ T.cols →
      ∃ R, (filter_by_different_char_count T c n).1 = .ok R ∧
        R.cols = T.cols ∧
        R.rows = (mapColTable T c stringifyCell).rows.filter
          (fun r => (pyStr (cellAt (T.colIdx c) r)).length != n) ∧
        R.rows = (T.rows.filter
            (fun r => (pyStr (cellAt (T.colIdx c) r)).length != n)).map
          (fun r => r.set (T.colIdx c) (stringifyCell (cellAt (T.colIdx c) r))) ∧
        List.Sublist R.rows (mapColTable T c stringifyCell).rows) ∧
    (c ∉ T.cols →
      (filter_by_different_char_count T c n).1 = .error (.invalidColumn c)) := by
  constructor
  · intro hc
    have hpred : ∀ r : List Value,
        (pyStr (cellAt (T.colIdx c)
          (r.set (T.colIdx c) (stringifyCell (cellAt (T.colIdx c) r))))).length
          = (pyStr (cellAt (T.colIdx c) r)).length := by
      intro r
      rw [cellAt_set]
      by_cases hj : T.colIdx c < r.length
      · simp [hj, stringifyCell, pyStr]
      · simp [hj]
    have hsel : selectRows (mapColTable T c stringifyCell).rows
        ((mapColTable T c stringifyCell).rows.map
          (fun r => (pyStr (cellAt (T.colIdx c) r)).length != n)) =
        (mapColTable T c stringifyCell).rows.filter
          (fun r => (pyStr (cellAt (T.colIdx c) r)).length != n) :=
      selectRows_map _ _
    refine ⟨⟨T.cols, (mapColTable T c stringifyCell).rows.filter
        (fun r => (pyStr (cellAt (T.colIdx c) r)).length != n)⟩,
      ?_, rfl, rfl, ?_, ?_⟩
    · unfold filter_by_different_char_count
      rw [if_pos hc]
      show Except.ok (⟨T.cols, selectRows _ _⟩ : Table) = _
      rw [hsel]
    · show (mapColTable T c stringifyCell).rows.filter _ = _
      show (T.rows.map _).filter _ = _
      rw [List.filter_map]
      congr 1
      apply List.filter_congr
      intro r _
      simp only [Function.comp]
      rw [hpred r]
    · exact List.filter_sublist _
  · intro hc
    simp [filter_by_different_char_count, hc]

theorem filter_by_different_char_count_spec_witness :
    ∃ R, (filter_by_different_char_count
        ⟨["a"], [[Value.str "abc"], [Value.str "x"]]⟩ "a" 3).1 = .ok R ∧
      R.cols = ["a"] ∧
      R.rows = (mapColTable ⟨["a"], [[Value.str "abc"], [Value.str "x"]]⟩
          "a" stringifyCell).rows.filter
        (fun r => (pyStr (cellAt 0 r)).length != 3) ∧
      R.rows = (([[Value.str "abc"], [Value.str "x"]] : List (List Value)).filter
          (fun r => (pyStr (cellAt 0 r)).length != 3)).map
        (fun r => r.set 0 (stringifyCell (cellAt 0 r))) ∧
      List.Sublist R.rows (mapColTable
        ⟨["a"], [[Value.str "abc"], [Value.str "x"]]⟩ "a" stringifyCell).rows :=
  (filter_by_different_char_count_spec
    ⟨["a"], [[Value.str "abc"], [Value.str "x"]]⟩ "a" 3).1 (by decide)

/-- C10: on a present column a successful call stringifies column `c` of
the CALLER'S table in place: the second component of the pair (the state
of the input frame after the call) is the input with every `c`-cell
replaced by its Python string form, while the filtered frame is returned
separately as the first component. -/
theorem filter_by_different_char_count_mutates (T : Table) (c : String)
    (n : Nat) (hwf : T.Wf) (hc : c ∈ T.cols) :
    (filter_by_different_char_count T c n).2 = mapColTable T c stringifyCell ∧
    getCol (filter_by_different_char_count T c n).2 c =
      (getCol T c).map (fun v => Value.str (pyStr v)) ∧
    ∃ R, (filter_by_different_char_count T c n).1 = .ok R := by
  have h2 : (filter_by_different_char_count T c n).2 =
      mapColTable T c stringifyCell := by
    simp only [filter_by_different_char_count, if_pos hc]
  refine ⟨h2, ?_, ?_⟩
  · rw [h2]
    exact getCol_mapColTable T c stringifyCell hwf hc
  · refine ⟨⟨T.cols, selectRows (mapColTable T c stringifyCell).rows
        ((mapColTable T c stringifyCell).rows.map
          (fun r => (pyStr (cellAt (T.colIdx c) r)).length != n))⟩, ?_⟩
    unfold filter_by_different_char_count
    rw [if_pos hc]
    exact rfl

theorem filter_by_different_char_count_mutates_witness :
    (filter_by_different_char_count ⟨["a"], [[Value.num 12]]⟩ "a" 5).2 =
      mapColTable ⟨["a"], [[Value.num 12]]⟩ "a" stringifyCell ∧
    getCol (filter_by_different_char_count ⟨["a"], [[Value.num 12]]⟩ "a" 5).2
        "a" = (getCol ⟨["a"], [[Value.num 12]]⟩ "a").map
        (fun v => Value.str (pyStr v)) ∧
    ∃ R, (filter_by_different_char_count ⟨["a"], [[Value.num 12]]⟩ "a" 5).1 =
      .ok R :=
  filter_by_different_char_count_mutates ⟨["a"], [[Value.num 12]]⟩ "a" 5
    (by decide) (by decide)

/-! ## C5: `clean_special_characters` -/

/-- C5: on a present column every string cell has `&` replaced by `E`
and then every character that is neither an ASCII letter, a digit nor
whitespace removed (e.g. `"A&B #1!"` becomes `"AEB 1"`), non-string
cells pass through unchanged, and the mutated frame is both returned and
left in the caller's variable; on an absent column the call returns
`None`. -/
theorem clean_special_characters_spec (T : Table) (c : String) :
    (T.Wf → c ∈ T.cols →
      ∃ R, (clean_special_characters T c).1 = some R ∧
        (clean_special_characters T c).2 = R ∧
        R.cols = T.cols ∧
        getCol R c = (getCol T c).map cleanText ∧
        (∀ v, isStrVal v = false → cleanText v = v) ∧
        cleanText (.str "A&B #1!") = .str "AEB 1") ∧
    (c ∉ T.cols → (clean_special_characters T c).1 = none) := by
  constructor
  · intro hwf hc
    refine ⟨mapColTable T c cleanText, ?_, ?_, rfl,
      getCol_mapColTable T c cleanText hwf hc, ?_, by decide⟩
    · simp [clean_special_characters, hc]
    · simp [clean_special_characters, hc]
    · intro v hv
      cases v <;> first | rfl | simp [isStrVal] at hv
  · intro hc
    simp [clean_special_characters, hc]

theorem clean_special_characters_spec_witness :
    ∃ R, (clean_special_characters
        ⟨["a"], [[Value.str "A&B #1!"], [Value.num 7]]⟩ "a").1 = some R ∧
      (clean_special_characters
        ⟨["a"], [[Value.str "A&B #1!"], [Value.num 7]]⟩ "a").2 = R ∧
      R.cols = ["a"] ∧
      getCol R "a" =
        (getCol ⟨["a"], [[Value.str "A&B #1!"], [Value.num 7]]⟩ "a").map
          cleanText ∧
      (∀ v, isStrVal v = false → cleanText v = v) ∧
      cleanText (.str "A&B #1!") = .str "AEB 1" :=
  (clean_special_characters_spec
    ⟨["a"], [[Value.str "A&B #1!"], [Value.num 7]]⟩ "a").1
    (by decide) (by decide)

/-! ## C6 and C9: `format_phone_number` -/

/-- C6: on a present column every cell is stringified and reduced to its
digit characters in order, with no padding and no length enforcement
(the output's characters are exactly the digit characters of the
stringified input, e.g. `"(11) 98888-7777"` becomes `"11988887777"`);
on an absent column the call returns `None`. -/
theorem format_phone_number_spec (T : Table) (c : String) :
    (T.Wf → c ∈ T.cols →
      ∃ R, format_phone_number T c = some R ∧ R.cols = T.cols ∧
        getCol R c = (getCol T c).map phoneClean ∧
        (∀ v, ∃ s, phoneClean v = .str s ∧
          s.data = (pyStr v).data.filter Char.isDigit) ∧
        phoneClean (.str "(11) 98888-7777") = .str "11988887777") ∧
    (c ∉ T.cols → format_phone_number T c = none) := by
  constructor
  · intro hwf hc
    refine ⟨mapColTable T c phoneClean, by simp [format_phone_number, hc],
      rfl, getCol_mapColTable T c phoneClean hwf hc, ?_, by decide⟩
    intro v
    exact ⟨digitsOnly (pyStr v), rfl, rfl⟩
  · intro hc
    simp [format_phone_number, hc]

theorem format_phone_number_spec_witness :
    ∃ R, format_phone_number
        ⟨["p"], [[Value.str "(11) 98888-7777"]]⟩ "p" = some R ∧
      R.cols = ["p"] ∧
      getCol R "p" =
        (getCol ⟨["p"], [[Value.str "(11) 98888-7777"]]⟩ "p").map phoneClean ∧
      (∀ v, ∃ s, phoneClean v = .str s ∧
        s.data = (pyStr v).data.filter Char.isDigit) ∧
      phoneClean (.str "(11) 98888-7777") = .str "11988887777" :=
  (format_phone_number_spec ⟨["p"], [[Value.str "(11) 98888-7777"]]⟩ "p").1
    (by decide) (by decide)

/-- C9: after a successful `format_phone_number` call the output column
holds only strings — the missing sentinel is stringified to `"nan"` by
`astype(str)` and then stripped of its non-digits, leaving the empty
string `""` rather than a missing value. -/
theorem format_phone_number_no_missing (T : Table) (c : String)
    (hwf : T.Wf) (hc : c ∈ T.cols) :
    ∃ R, format_phone_number T c = some R ∧
      getCol R c = (getCol T c).map phoneClean ∧
      (∀ v ∈ getCol R c, v ≠ .missing ∧ isStrVal v = true) ∧
      phoneClean .missing = .str "" := by
  have hmap := getCol_mapColTable T c phoneClean hwf hc
  refine ⟨mapColTable T c phoneClean, by simp [format_phone_number, hc],
    hmap, ?_, by decide⟩
  intro v hv
  rw [hmap] at hv
  rcases List.mem_map.mp hv with ⟨u, _, rfl⟩
  exact ⟨by simp [phoneClean], rfl⟩

theorem format_phone_number_no_missing_witness :
    ∃ R, format_phone_number
        ⟨["p"], [[Value.missing], [Value.str "(11) 98888-7777"]]⟩ "p" =
        some R ∧
      getCol R "p" =
        (getCol ⟨["p"], [[Value.missing], [Value.str "(11) 98888-7777"]]⟩
          "p").map phoneClean ∧
      (∀ v ∈ getCol R "p", v ≠ .missing ∧ isStrVal v = true) ∧
      phoneClean .missing = .str "" :=
  format_phone_number_no_missing
    ⟨["p"], [[Value.missing], [Value.str "(11) 98888-7777"]]⟩ "p"
    (by decide) (by decide)

/-! ## C2: `format_document` -/

lemma filter_dropWhile_of_imp {p q : Char → Bool}
    (hpq : ∀ c, p c = true → q c = false) (l : List Char) :
    (l.dropWhile p).filter q = l.filter q := by
  induction l with
  | nil => rfl
  | cons a t ih =>
    cases h : p a with
    | false => simp [List.dropWhile_cons, h]
    | true => simp [List.dropWhile_cons, h, ih, List.filter_cons, hpq a h]

lemma ws_not_digit (c : Char) (h : isPyWS c = true) : c.isDigit = false := by
  simp [isPyWS] at h
  rcases h with ((((rfl | rfl) | rfl) | rfl) | rfl) | rfl <;> decide

lemma filter_digit_pyStripL (l : List Char) :
    (pyStripL l).filter Char.isDigit = l.filter Char.isDigit := by
  unfold pyStripL rstripL lstripL
  rw [List.filter_reverse, filter_dropWhile_of_imp ws_not_digit,
    List.filter_reverse, List.reverse_reverse,
    filter_dropWhile_of_imp ws_not_digit]

/-- Stripping surrounding whitespace does not change the digit content
of a string: `re.sub(r'\D', '', s.strip()) = re.sub(r'\D', '', s)`. -/
lemma digitsOnly_pyStrip (s : String) :
    digitsOnly (pyStrip s) = digitsOnly s :=
  congrArg String.mk (filter_digit_pyStripL s.data)

/-- Modelled from the claim's words, read literally: a missing value, an
EMPTY string, or the literal strings `"nan"`/`"none"` (case-insensitive)
become missing; ANY other value is stringified and reduced to its
digits, then padded with zeros or truncated to `size`. -/
def claimDocCellLiteral (size : Nat) (v : Value) : Value :=
  if v = .missing ∨ pyStr v = "" ∨ pyLower (pyStr v) = "nan" ∨
      pyLower (pyStr v) = "none" then .missing
  else
    if size ≤ (digitsOnly (pyStr v)).length then
      .str ⟨(digitsOnly (pyStr v)).data.take size⟩
    else .str (zfill size (digitsOnly (pyStr v)))

/-- Modelled from the amended claim's words: as `claimDocCellLiteral`,
except that the missing test applies to the stringified value after
stripping surrounding whitespace and lowercasing. -/
def claimDocCellAmended (size : Nat) (v : Value) : Value :=
  if v = .missing ∨ stripLower (pyStr v) = "" ∨
      stripLower (pyStr v) = "nan" ∨ stripLower (pyStr v) = "none" then
    .missing
  else
    if size ≤ (digitsOnly (pyStr v)).length then
      .str ⟨(digitsOnly (pyStr v)).data.take size⟩
    else .str (zfill size (digitsOnly (pyStr v)))

lemma processDoc_eq_amended (size : Nat) (v : Value) :
    processDoc size v = claimDocCellAmended size v := by
  unfold processDoc claimDocCellAmended
  simp only [digitsOnly_pyStrip, List.mem_cons, List.not_mem_nil, or_false]
  by_cases hm : v = .missing ∨ stripLower (pyStr v) = "" ∨
      stripLower (pyStr v) = "nan" ∨ stripLower (pyStr v) = "none"
  · rw [if_pos hm, if_pos hm]
  · rw [if_neg hm, if_neg hm]
    by_cases h1 : (digitsOnly (pyStr v)).length < size
    · rw [if_pos h1, if_neg (by omega)]
    · by_cases h2 : (digitsOnly (pyStr v)).length > size
      · rw [if_neg h1, if_pos h2, if_pos (by omega)]
      · rw [if_neg h1, if_neg h2, if_pos (by omega)]
        have hlen : (digitsOnly (pyStr v)).length = size := by omega
        rw [← hlen]
        congr 1
        have ht : (digitsOnly (pyStr v)).data.take
            (digitsOnly (pyStr v)).length = (digitsOnly (pyStr v)).data :=
          List.take_length _
        rw [ht]

/-- C2 (amended): on a present column `format_document` maps each cell
by `claimDocCellAmended` — missing when the stringified, whitespace-
stripped, lowercased value is `""`, `"nan"` or `"none"` (or the cell is
missing), otherwise the digit characters of the stringified value,
zero-padded on the left to `size` when shorter and truncated to the
first `size` digits when longer; on an absent column it returns
`None`. -/
theorem format_document_amended (T : Table) (c : String) (size : Nat) :
    (T.Wf → c ∈ T.cols →
      ∃ R, format_document T c size = some R ∧ R.cols = T.cols ∧
        getCol R c = (getCol T c).map (claimDocCellAmended size)) ∧
    (c ∉ T.cols → format_document T c size = none) := by
  constructor
  · intro hwf hc
    refine ⟨mapColTable T c (processDoc size),
      by simp [format_document, hc], rfl, ?_⟩
    rw [getCol_mapColTable T c _ hwf hc]
    exact List.map_congr_left (fun v _ => processDoc_eq_amended size v)
  · intro hc
    simp [format_document, hc]

theorem format_document_amended_witness :
    ∃ R, format_document
        ⟨["d"], [[Value.str "123"], [Value.str "123456789012"],
          [Value.str ""], [Value.str "NaN"], [Value.missing]]⟩ "d" 11 =
        some R ∧
      R.cols = ["d"] ∧
      getCol R "d" =
        (getCol ⟨["d"], [[Value.str "123"], [Value.str "123456789012"],
          [Value.str ""], [Value.str "NaN"], [Value.missing]]⟩ "d").map
          (claimDocCellAmended 11) :=
  (format_document_amended
    ⟨["d"], [[Value.str "123"], [Value.str "123456789012"],
      [Value.str ""], [Value.str "NaN"], [Value.missing]]⟩ "d" 11).1
    (by decide) (by decide)

/-- C2 (counterexample to the claim as stated): on the one-cell column
holding the one-space string `" "`, the claim's case split makes the
value fall into the "any other value" branch (it is none of: missing,
the empty string, `"nan"`, `"none"`), yielding `"00000000000"` for
`size = 11`; the code, which strips and lowercases before comparing,
maps it to missing instead. -/
theorem format_document_claim_cex :
    format_document ⟨["d"], [[Value.str " "]]⟩ "d" 11 =
      some ⟨["d"], [[Value.missing]]⟩ ∧
    claimDocCellLiteral 11 (Value.str " ") = Value.str "00000000000" ∧
    Value.missing ≠ Value.str "00000000000" :=
  ⟨by decide, by decide, by decide⟩

/-! ## C4: idempotence of `strip_dataframe` -/

lemma dropWhile_dropWhile_self {α : Type} (p : α → Bool) (l : List α) :
    (l.dropWhile p).dropWhile p = l.dropWhile p := by
  induction l with
  | nil => rfl
  | cons a t ih =>
    cases h : p a
    · simp [List.dropWhile_cons, h]
    · simp [List.dropWhile_cons, h, ih]

lemma exists_append_dropWhile {α : Type} (p : α → Bool) (l : List α) :
    ∃ s, s ++ l.dropWhile p = l := by
  induction l with
  | nil => exact ⟨[], rfl⟩
  | cons a t ih =>
    cases h : p a
    · exact ⟨[], by simp [List.dropWhile_cons, h]⟩
    · obtain ⟨s, hs⟩ := ih
      exact ⟨a :: s, by simp [List.dropWhile_cons, h, hs]⟩

lemma dropWhile_head_false {α : Type} (p : α → Bool) (l : List α) :
    ∀ a t, l.dropWhile p = a :: t → p a = false := by
  induction l with
  | nil => intro a t h; simp at h
  | cons b bs ih =>
    intro a t h
    cases hb : p b
    · rw [List.dropWhile_cons, if_neg (by simp [hb])] at h
      cases h
      exact hb
    · rw [List.dropWhile_cons, if_pos (by simp [hb])] at h
      exact ih a t h

/-- The property of whitespace-free front: the list does not start with
a whitespace character. -/
def NoWSHead (l : List Char) : Prop :=
  ∀ a t, l = a :: t → isPyWS a = false

lemma noWSHead_lstripL (l : List Char) : NoWSHead (lstripL l) :=
  fun a t h => dropWhile_head_false isPyWS l a t h

lemma lstripL_of_noWSHead (l : List Char) (h : NoWSHead l) : lstripL l = l := by
  cases l with
  | nil => rfl
  | cons a t =>
    unfold lstripL
    rw [List.dropWhile_cons, if_neg (by simp [h a t rfl])]

lemma exists_append_rstripL (l : List Char) : ∃ t, l = rstripL l ++ t := by
  obtain ⟨s, hs⟩ := exists_append_dropWhile isPyWS l.reverse
  refine ⟨s.reverse, ?_⟩
  calc l = l.reverse.reverse := (List.reverse_reverse l).symm
    _ = (s ++ l.reverse.dropWhile isPyWS).reverse := by rw [hs]
    _ = rstripL l ++ s.reverse := by rw [List.reverse_append]; rfl

lemma noWSHead_rstripL (l : List Char) (h : NoWSHead l) :
    NoWSHead (rstripL l) := by
  intro a t ha
  obtain ⟨u, hu⟩ := exists_append_rstripL l
  rw [ha] at hu
  exact h a (t ++ u) (by simpa using hu)

lemma rstripL_rstripL (l : List Char) : rstripL (rstripL l) = rstripL l := by
  unfold rstripL
  rw [List.reverse_reverse, dropWhile_dropWhile_self]

lemma pyStripL_idem (l : List Char) : pyStripL (pyStripL l) = pyStripL l := by
  unfold pyStripL
  rw [lstripL_of_noWSHead _ (noWSHead_rstripL _ (noWSHead_lstripL l)),
    rstripL_rstripL]

lemma pyStrip_idem (s : String) : pyStrip (pyStrip s) = pyStrip s :=
  congrArg String.mk (pyStripL_idem s.data)

lemma stripObjCell_idem (v : Value) :
    stripObjCell (stripObjCell v) = stripObjCell v := by
  cases v <;> simp [stripObjCell, pyStrip_idem]

lemma isStrVal_stripObjCell (v : Value) :
    isStrVal (stripObjCell v) = isStrVal v := by
  cases v <;> rfl

lemma stripCells_idem : ∀ (flags : List Bool) (vs : List Value),
    stripCells flags (stripCells flags vs) = stripCells flags vs := by
  intro flags vs
  induction vs generalizing flags with
  | nil => cases flags <;> rfl
  | cons v vs ih =>
    cases flags with
    | nil => rfl
    | cons f fs =>
      cases f
      · simp [stripCells, ih fs]
      · simp [stripCells, ih fs, stripObjCell_idem]

lemma cellAt_stripCells : ∀ (flags : List Bool) (vs : List Value) (j : Nat),
    cellAt j (stripCells flags vs) =
      if flags.getD j false then stripObjCell (cellAt j vs)
      else cellAt j vs := by
  intro flags vs
  induction vs generalizing flags with
  | nil =>
    intro j
    cases flags with
    | nil => simp [stripCells, cellAt]
    | cons f fs =>
      cases hf : (f :: fs).getD j false <;>
        simp [stripCells, cellAt, hf, stripObjCell]
  | cons v vs ih =>
    intro j
    cases flags with
    | nil => simp [stripCells, cellAt]
    | cons f fs =>
      cases j with
      | zero => simp [stripCells, cellAt, List.getD_cons_zero]
      | succ j =>
        have := ih fs j
        simp only [stripCells, cellAt, List.getD_cons_succ] at this ⊢
        exact this

lemma Table.ext (A B : Table) (h1 : A.cols = B.cols) (h2 : A.rows = B.rows) :
    A = B := by
  cases A; cases B; cases h1; cases h2; rfl

lemma colAt_strip (T : Table) (j : Nat) :
    colAt (strip_dataframe T) j =
      if (objFlags T).getD j false then (colAt T j).map stripObjCell
      else colAt T j := by
  cases hf : (objFlags T).getD j false with
  | false =>
    rw [if_neg (by simp [hf])]
    show (T.rows.map (stripCells (objFlags T))).map (cellAt j) =
      T.rows.map (cellAt j)
    rw [List.map_map]
    apply List.map_congr_left
    intro r _
    simp only [Function.comp]
    rw [cellAt_stripCells, hf]
    simp
  | true =>
    rw [if_pos (by simp [hf])]
    show (T.rows.map (stripCells (objFlags T))).map (cellAt j) =
      (T.rows.map (cellAt j)).map stripObjCell
    rw [List.map_map, List.map_map]
    apply List.map_congr_left
    intro r _
    simp only [Function.comp]
    rw [cellAt_stripCells, hf]
    simp

lemma objFlags_strip (T : Table) : objFlags (strip_dataframe T) = objFlags T := by
  unfold objFlags
  show (List.range T.cols.length).map _ = (List.range T.cols.length).map _
  apply List.map_congr_left
  intro j _
  rw [colAt_strip]
  cases hf : (objFlags T).getD j false with
  | false => simp [hf]
  | true =>
    rw [if_pos (by simp [hf]), List.any_map,
      show isStrVal ∘ stripObjCell = isStrVal from funext isStrVal_stripObjCell]

/-- C4: `strip_dataframe` is idempotent — stripping an already stripped
table changes nothing.  (Object columns stay object columns whose
strings are already stripped, and non-object columns are skipped both
times.) -/
theorem strip_dataframe_idempotent (T : Table) :
    strip_dataframe (strip_dataframe T) = strip_dataframe T := by
  have hrows : (strip_dataframe (strip_dataframe T)).rows =
      (strip_dataframe T).rows := by
    show ((strip_dataframe T).rows).map
        (stripCells (objFlags (strip_dataframe T))) = (strip_dataframe T).rows
    rw [objFlags_strip]
    show (T.rows.map (stripCells (objFlags T))).map (stripCells (objFlags T)) =
      T.rows.map (stripCells (objFlags T))
    rw [List.map_map]
    apply List.map_congr_left
    intro r _
    simp only [Function.comp]
    exact stripCells_idem (objFlags T) r
  exact Table.ext _ _ rfl hrows

/-! ## C8: `dataframe_to_excel` -/

def bijColLettersAux : Nat → Nat → List Char
  | 0, _ => []
  | _ + 1, 0 => []
  | fuel + 1, n + 1 =>
    bijColLettersAux fuel ((n + 1 - 1) / 26) ++ [Char.ofNat (65 + (n + 1 - 1) % 26)]

/-- Modelled from the claim's words: the spreadsheet column letters of
the 1-based column number `n` (bijective base 26: `1 ↦ A`, `26 ↦ Z`,
`27 ↦ AA`, `28 ↦ AB`, ...). -/
def bijColLetters (n : Nat) : List Char := bijColLettersAux n n

/-- Modelled from the claim's words: the table region runs from `A1` to
the spreadsheet column letter of the table's last column followed by
`N + 1`. -/
def specRegionRef (T : Table) : String :=
  "A1:" ++ String.mk (bijColLetters T.cols.length) ++ toString (T.rows.length + 1)

/-- Modelled from the claim's words: each column's width is the length
of the longest stringified cell value in that column, plus 2. -/
def specWidths (T : Table) : List Nat :=
  (columnsOf T).map
    (fun hc => (pyMax (hc.2.map (fun v => (pyStr v).length))).getD 0 + 2)

lemma bijColLetters_small (n : Nat) (h1 : 1 ≤ n) (h2 : n ≤ 26) :
    bijColLetters n = [Char.ofNat (65 + n - 1)] := by
  interval_cases n <;> decide

lemma mapM_option_eq_some {α : Type} (f : α → Option Nat) :
    ∀ l : List α, (∀ x ∈ l, (f x).isSome) →
      l.mapM f = some (l.map (fun x => (f x).getD 0)) := by
  intro l
  induction l with
  | nil => intro _; rfl
  | cons a t ih =>
    intro h
    have ha : (f a).isSome := h a (List.mem_cons_self a t)
    obtain ⟨b, hb⟩ := Option.isSome_iff_exists.mp ha
    rw [List.mapM_cons, List.map_cons, hb,
      ih (fun x hx => h x (List.mem_cons_of_mem a hx))]
    rfl

lemma mem_columnsOf (T : Table) (hc : String × List Value)
    (h : hc ∈ columnsOf T) : hc.1 ∈ T.cols := by
  unfold columnsOf at h
  rcases List.mem_map.mp h with ⟨j, hj, rfl⟩
  have hjlt : j < T.cols.length := List.mem_range.mp hj
  show T.cols.getD j "" ∈ T.cols
  rw [List.getD_eq_getElem T.cols "" hjlt]
  exact List.getElem_mem hjlt

lemma pyMax_isSome_of_header {header : String} (hh : header.isEmpty = false)
    (cells : List Value) :
    (pyMax (colWidthCandidates header cells)).isSome := by
  unfold colWidthCandidates pyMax
  rw [if_neg (by simp [hh])]
  rfl

lemma sheetWidths_eq (T : Table) (h : ∀ s ∈ T.cols, s.isEmpty = false) :
    sheetWidths T = some ((columnsOf T).map
      (fun hc => (pyMax (colWidthCandidates hc.1 hc.2)).getD 0 + 2)) := by
  unfold sheetWidths
  rw [mapM_option_eq_some _ _ (fun hc hmem => by
    obtain ⟨b, hb⟩ := Option.isSome_iff_exists.mp
      (pyMax_isSome_of_header (h hc.1 (mem_columnsOf T hc hmem)) hc.2)
    rw [hb]
    rfl)]
  congr 1
  apply List.map_congr_left
  intro hc hmem
  obtain ⟨b, hb⟩ := Option.isSome_iff_exists.mp
    (pyMax_isSome_of_header (h hc.1 (mem_columnsOf T hc hmem)) hc.2)
  rw [hb]
  rfl

/-- C8 (amended): for a table with 1..26 columns whose headers are all
nonempty, `dataframe_to_excel` computes the `DataTable` region
`A1:<letter><N+1>` — the letter being the character of code
`65 + numCols - 1`, the last column's spreadsheet letter in this range —
and sets each column width to 2 plus the maximum of the header length
and the stringified lengths of the column's TRUTHY cells (cells holding
`0`, `False` or the empty string are skipped by the `if cell.value`
filter). -/
theorem dataframe_to_excel_amended (T : Table) (h1 : T.cols ≠ [])
    (h2 : T.cols.length ≤ 26) (h3 : ∀ s ∈ T.cols, s.isEmpty = false) :
    dataframe_to_excel T =
      some ⟨"A1:" ++ String.mk (bijColLetters T.cols.length) ++
          toString (T.rows.length + 1),
        (columnsOf T).map
          (fun hc => (pyMax (colWidthCandidates hc.1 hc.2)).getD 0 + 2)⟩ := by
  have href : tableRegionRef T =
      "A1:" ++ String.mk (bijColLetters T.cols.length) ++
        toString (T.rows.length + 1) := by
    unfold tableRegionRef
    rw [bijColLetters_small T.cols.length (List.length_pos.mpr h1) h2]
  unfold dataframe_to_excel
  rw [sheetWidths_eq T h3, href]

theorem dataframe_to_excel_amended_witness :
    dataframe_to_excel ⟨["ab"], [[Value.bool true]]⟩ =
      some ⟨"A1:" ++ String.mk (bijColLetters 1) ++ toString 2,
        (columnsOf ⟨["ab"], [[Value.bool true]]⟩).map
          (fun hc => (pyMax (colWidthCandidates hc.1 hc.2)).getD 0 + 2)⟩ :=
  dataframe_to_excel_amended ⟨["ab"], [[Value.bool true]]⟩
    (by decide) (by decide) (by decide)

/-- C8 (counterexample to the claim as stated): (a) widths — on the
one-column table with header `"ab"` and single cell `False`, the code
skips the falsy cell and uses only the header, giving width `4`, while
the claim's "longest stringified cell value plus 2" gives
`len("False") + 2 = 7`; (b) region — on a table with 27 columns the code
writes `chr(65 + 26) = "["` where the spreadsheet letter of column 27 is
`"AA"`. -/
theorem dataframe_to_excel_claim_cex :
    dataframe_to_excel ⟨["ab"], [[Value.bool false]]⟩ =
      some ⟨"A1:A2", [4]⟩ ∧
    specWidths ⟨["ab"], [[Value.bool false]]⟩ = [7] ∧
    (4 : Nat) ≠ 7 ∧
    tableRegionRef ⟨(List.range 27).map (fun j => toString j), []⟩ = "A1:[1" ∧
    specRegionRef ⟨(List.range 27).map (fun j => toString j), []⟩ = "A1:AA1" ∧
    ("A1:[1" : String) ≠ "A1:AA1" :=
  ⟨by decide, by decide, by decide, by decide, by decide, by decide⟩

end PandasAux
